import Mathlib

/-!
Verification of the `generic-global-variables` crate (src/lib.rs): a
concurrent, type-indexed lazy-singleton registry.

Shallow embedding:
* `TypeId` is modelled as a `Nat`.
* `Arc<dyn Any>` is modelled as an address (`Nat`) into an append-only heap
  of `ArcAny` cells; each cell records the `TypeId` of the concrete type the
  value was created at, together with the value itself, drawn from a
  universal value domain `Val`.  Cloning an `Arc` copies the address, so two
  handles reference the identical stored value iff their addresses agree.
* `GenericGlobal(RwLock<HashMap<TypeId, Arc<dyn Any>>>)` is a heap plus an
  association list from `TypeId` to heap address; `HashMap::insert` prepends
  (lookup sees the new binding) and reports the previous binding.
* `<dyn Any>::downcast_ref::<T>` succeeds iff the cell's recorded `TypeId`
  equals `T`'s; the `.unwrap()` in `Deref` is modelled by returning `Option`.
* `get_or_init` is transcribed with its double-checked structure: fast-path
  read, re-check under the upgradable lock, then create-and-insert.  The
  result records the state, the returned handle, whether the factory ran,
  and the `debug_assert!(option.is_none())` condition.
* For the concurrency claims a small-step interleaving system is defined in
  which each thread walks through the fast read, the upgradable re-check and
  the exclusive insert, with the upgradable/write lock explicit.
-/

namespace GenericGlobals

/-- A type-erased heap cell: the pointee of an `Arc<dyn Any>`, carrying the
runtime `TypeId` of the stored concrete type together with the value. -/
structure ArcAny (Val : Type) where
  typeId : Nat
  value : Val
  deriving Repr, DecidableEq

/-- Lookup in the association list modelling `HashMap<TypeId, Arc<dyn Any>>`
(the first binding for a key is the visible one). -/
def mlookup : List (Nat × Nat) → Nat → Option Nat
  | [], _ => none
  | (k, v) :: rest, k2 => if k = k2 then some v else mlookup rest k2

/-- The registry `GenericGlobal(RwLock<HashMap<TypeId, Arc<dyn Any>>>)`:
an append-only heap of `Arc` cells plus the map from `TypeId` to the
address of the stored cell. -/
structure GenericGlobal (Val : Type) where
  heap : List (ArcAny Val)
  map : List (Nat × Nat)
  deriving Repr, DecidableEq

/-- `GenericGlobal::new`, i.e. `Self::default()`: an empty map (and an empty
heap, since no `Arc` has been created through the registry yet). -/
def GenericGlobal.new (Val : Type) : GenericGlobal Val := ⟨[], []⟩

/-- `Entry<T>(Arc<dyn Any>, PhantomData<T>)`: the address of the shared cell
plus the `TypeId` of the phantom type parameter `T`. -/
structure Entry where
  arc : Nat
  tid : Nat
  deriving Repr, DecidableEq

/-- `Entry::new(arc)` for type parameter with id `tid`. -/
def Entry.new (arc tid : Nat) : Entry := ⟨arc, tid⟩

/-- `impl Clone for Entry<T>`: `Self::new(self.0.clone())` — cloning the
`Arc` copies the address, so the clone references the identical cell. -/
def Entry.clone (e : Entry) : Entry := Entry.new e.arc e.tid

/-- `impl Deref for Entry<T>`: `<dyn Any>::downcast_ref::<T>(&*self.0)`,
which succeeds iff the cell's recorded `TypeId` equals the entry's phantom
`TypeId`.  The `.unwrap()` is modelled by `Option`: `none` is a panic. -/
def Entry.deref {Val : Type} (s : GenericGlobal Val) (e : Entry) : Option Val :=
  match s.heap[e.arc]? with
  | some cell => if cell.typeId = e.tid then some cell.value else none
  | none => none

/-- `impl Display for Entry<T>`: `fmt::Display::fmt(self.deref(), f)` —
formatting delegates through the dereference (`disp` plays the role of
`T`'s `Display` implementation). -/
def Entry.fmtDisplay {Val : Type} (disp : Val → String) (s : GenericGlobal Val)
    (e : Entry) : Option String :=
  (e.deref s).map disp

/-- The outcome of one `get_or_init` call: the registry afterwards, the
returned `Entry`, whether the caller's factory was invoked, and the
`debug_assert!(option.is_none())` condition (`true` when not reached). -/
structure CallResult (Val : Type) where
  state : GenericGlobal Val
  handle : Entry
  invoked : Bool
  assertOk : Bool
  deriving Repr

/-- `GenericGlobal::get_or_init::<T>(f)` with `typeid = TypeId::of::<T>()`,
transcribed from src/lib.rs lines 69–99: fast-path read; re-check under the
upgradable read lock; otherwise upgrade, run `f`, wrap it in a fresh `Arc`
(a fresh heap address) and insert it, recording the previous binding for
the `debug_assert`. -/
def GenericGlobal.get_or_init {Val : Type} (s : GenericGlobal Val) (typeid : Nat)
    (f : Unit → Val) : CallResult Val :=
  match mlookup s.map typeid with
  | some addr => ⟨s, Entry.new addr typeid, false, true⟩
  | none =>
    match mlookup s.map typeid with
    | some addr => ⟨s, Entry.new addr typeid, false, true⟩
    | none =>
      let arc : ArcAny Val := ⟨typeid, f ()⟩
      let addr := s.heap.length
      let old := mlookup s.map typeid
      ⟨⟨s.heap ++ [arc], (typeid, addr) :: s.map⟩, Entry.new addr typeid, true,
        old.isNone⟩

/-- The value currently stored in the registry under a given `TypeId`. -/
def GenericGlobal.storedValue {Val : Type} (s : GenericGlobal Val)
    (typeid : Nat) : Option Val :=
  match mlookup s.map typeid with
  | some addr =>
    match s.heap[addr]? with
    | some cell => some cell.value
    | none => none
  | none => none

/-- Well-formedness of a registry state: every binding in the map points at
a live heap cell whose recorded `TypeId` is the binding's key (the code
establishes this because a value is only ever stored under the `TypeId`
derived from its own type). -/
def GenericGlobal.WF {Val : Type} (s : GenericGlobal Val) : Prop :=
  ∀ p ∈ s.map, ∃ cell, s.heap[p.2]? = some cell ∧ cell.typeId = p.1

/-- A successful `mlookup` comes from a binding in the list. -/
lemma mlookup_mem {m : List (Nat × Nat)} {k a : Nat} (h : mlookup m k = some a) :
    (k, a) ∈ m := by
  induction m with
  | nil => simp [mlookup] at h
  | cons p rest ih =>
    obtain ⟨pk, pv⟩ := p
    by_cases hk : pk = k
    · subst hk
      simp [mlookup] at h
      subst h
      exact List.mem_cons_self _ _
    · simp [mlookup, hk] at h
      exact List.mem_cons_of_mem _ (ih h)

/-- The freshly created registry is well formed. -/
lemma wf_new (Val : Type) : (GenericGlobal.new Val).WF := by
  intro p hp
  simp [GenericGlobal.new] at hp

/-- `get_or_init` preserves well-formedness. -/
lemma wf_get_or_init {Val : Type} {s : GenericGlobal Val} (typeid : Nat)
    (f : Unit → Val) (hwf : s.WF) : (s.get_or_init typeid f).state.WF := by
  cases h : mlookup s.map typeid with
  | some addr => simpa [GenericGlobal.get_or_init, h] using hwf
  | none =>
    intro p hp
    simp only [GenericGlobal.get_or_init, h] at hp
    rcases List.mem_cons.mp hp with hp1 | hp2
    · subst hp1
      exact ⟨⟨typeid, f ()⟩,
        by simp [GenericGlobal.get_or_init, h, List.getElem?_concat_length], rfl⟩
    · obtain ⟨cell, hc, ht⟩ := hwf p hp2
      refine ⟨cell, ?_, ht⟩
      have hlt : p.2 < s.heap.length := (List.getElem?_eq_some_iff.mp hc).1
      simp [GenericGlobal.get_or_init, h, List.getElem?_append_left hlt, hc]

/-- Core lemma: the handle returned by `get_or_init` always dereferences
successfully, to exactly the value now stored in the registry under the
requested `TypeId`; when the factory ran, that value is the factory's. -/
lemma deref_get_or_init {Val : Type} (s : GenericGlobal Val) (typeid : Nat)
    (f : Unit → Val) (hwf : s.WF) :
    ∃ v, (s.get_or_init typeid f).handle.deref (s.get_or_init typeid f).state
        = some v
      ∧ (s.get_or_init typeid f).state.storedValue typeid = some v
      ∧ ((s.get_or_init typeid f).invoked = true → v = f ()) := by
  cases h : mlookup s.map typeid with
  | some addr =>
    obtain ⟨cell, hc, ht⟩ := hwf (typeid, addr) (mlookup_mem h)
    refine ⟨cell.value, ?_, ?_, ?_⟩
    · simp [GenericGlobal.get_or_init, h, Entry.deref, Entry.new, hc, ht]
    · simp [GenericGlobal.get_or_init, h, GenericGlobal.storedValue, hc]
    · simp [GenericGlobal.get_or_init, h]
  | none =>
    refine ⟨f (), ?_, ?_, fun _ => rfl⟩
    · simp [GenericGlobal.get_or_init, h, Entry.deref, Entry.new,
        List.getElem?_concat_length]
    · simp [GenericGlobal.get_or_init, h, GenericGlobal.storedValue, mlookup,
        List.getElem?_concat_length]

/-- Whether the factory runs is exactly whether the key was absent. -/
lemma invoked_get_or_init {Val : Type} (s : GenericGlobal Val) (typeid : Nat)
    (f : Unit → Val) :
    (s.get_or_init typeid f).invoked = (mlookup s.map typeid).isNone := by
  cases h : mlookup s.map typeid <;> simp [GenericGlobal.get_or_init, h]

/-!
Interleaving model of concurrent `get_or_init` calls.

Each thread `t < N` runs `get_or_init` for the key `key t` with factory
`fac t` and moves through the program points of src/lib.rs lines 69–99:

* `start` — before line 72's fast-path read (taking the shared read lock,
  looking up, cloning the `Arc` and releasing is one atomic step: readers
  never block each other and never mutate the map);
* `pc1` — the fast-path read missed and the read lock has been released,
  but the upgradable read lock has not been acquired yet (another thread
  may insert the key in this window);
* `upg` — the thread holds the upgradable read lock (which excludes other
  upgradable holders and writers) and its re-check on line 86 found the key
  absent.  The upgrade on line 91, the factory call, the insert and the
  release are one atomic step: the write lock excludes every other access;
* `done a` — the call returned `Entry::new` of the `Arc` at heap address
  `a`.
-/

/-- Program point of one thread in its `get_or_init` call. -/
inductive TState where
  | start : TState
  | pc1 : TState
  | upg : TState
  | done (arc : Nat) : TState
  deriving Repr, DecidableEq

/-- The shared state of the interleaving model: the registry's heap and map,
the holder of the upgradable-read/write lock, the program point of every
thread, the keys whose factories have run (in order), and whether every
`debug_assert!(option.is_none())` executed so far succeeded. -/
structure Sys (Val : Type) where
  heap : List (ArcAny Val)
  map : List (Nat × Nat)
  lock : Option Nat
  ts : Nat → TState
  invoked : List Nat
  assertOk : Bool

/-- Pointwise update of the thread-state function. -/
def updTS (ts : Nat → TState) (t : Nat) (v : TState) : Nat → TState :=
  fun t2 => if t2 = t then v else ts t2

/-- One interleaved step: some thread `t < N` executes the next atomic
action of its `get_or_init (key t) (fac t)` call. -/
inductive Step (N : Nat) (key : Nat → Nat) {Val : Type}
    (fac : Nat → Unit → Val) : Sys Val → Sys Val → Prop where
  | fastHit (s : Sys Val) (t a : Nat) (htN : t < N) (hts : s.ts t = TState.start)
      (hm : mlookup s.map (key t) = some a) :
      Step N key fac s { s with ts := updTS s.ts t (TState.done a) }
  | fastMiss (s : Sys Val) (t : Nat) (htN : t < N) (hts : s.ts t = TState.start)
      (hm : mlookup s.map (key t) = none) :
      Step N key fac s { s with ts := updTS s.ts t TState.pc1 }
  | upgHit (s : Sys Val) (t a : Nat) (htN : t < N) (hts : s.ts t = TState.pc1)
      (hl : s.lock = none) (hm : mlookup s.map (key t) = some a) :
      Step N key fac s { s with ts := updTS s.ts t (TState.done a) }
  | upgMiss (s : Sys Val) (t : Nat) (htN : t < N) (hts : s.ts t = TState.pc1)
      (hl : s.lock = none) (hm : mlookup s.map (key t) = none) :
      Step N key fac s { s with ts := updTS s.ts t TState.upg, lock := some t }
  | doInsert (s : Sys Val) (t : Nat) (htN : t < N) (hts : s.ts t = TState.upg)
      (hl : s.lock = some t) :
      Step N key fac s
        { heap := s.heap ++ [⟨key t, fac t ()⟩]
          map := (key t, s.heap.length) :: s.map
          lock := none
          ts := updTS s.ts t (TState.done s.heap.length)
          invoked := s.invoked ++ [key t]
          assertOk := s.assertOk && (mlookup s.map (key t)).isNone }

/-- The initial state: empty registry, free lock, all threads at `start`. -/
def initSys (Val : Type) : Sys Val :=
  ⟨[], [], none, fun _ => TState.start, [], true⟩

/-- Reachability from the initial state by interleaved steps. -/
def Reachable (N : Nat) (key : Nat → Nat) {Val : Type}
    (fac : Nat → Unit → Val) (s : Sys Val) : Prop :=
  Relation.ReflTransGen (Step N key fac) (initSys Val) s

/-- Occurrence count in a list of keys. -/
def countN : List Nat → Nat → Nat
  | [], _ => 0
  | x :: xs, k => (if x = k then 1 else 0) + countN xs k

lemma countN_append (l1 l2 : List Nat) (k : Nat) :
    countN (l1 ++ l2) k = countN l1 k + countN l2 k := by
  induction l1 with
  | nil => simp [countN]
  | cons x xs ih => simp [countN, ih]; ring

/-- A list whose elements all equal `k` and whose count of `k` is `1` is
the singleton `[k]`. -/
lemma countN_one_all_eq {l : List Nat} {k : Nat} (h1 : countN l k = 1)
    (h2 : ∀ x ∈ l, x = k) : l = [k] := by
  cases l with
  | nil => simp [countN] at h1
  | cons x xs =>
    have hx : x = k := h2 x (List.mem_cons_self _ _)
    subst hx
    simp [countN] at h1
    cases xs with
    | nil => rfl
    | cons y ys =>
      have hy : y = x := h2 y (by simp)
      subst hy
      simp [countN] at h1

/-- The inductive invariant of the interleaving model. -/
structure Inv (N : Nat) (key : Nat → Nat) {Val : Type} (s : Sys Val) :
    Prop where
  lockTs : ∀ t, s.lock = some t → t < N ∧ s.ts t = TState.upg
  upgLock : ∀ t, s.ts t = TState.upg → s.lock = some t
  upgAbsent : ∀ t, s.ts t = TState.upg → mlookup s.map (key t) = none
  doneMap : ∀ t a, s.ts t = TState.done a → mlookup s.map (key t) = some a
  countMap : ∀ k, countN s.invoked k = if (mlookup s.map k).isSome then 1 else 0
  memKeys : ∀ k ∈ s.invoked, ∃ t, t < N ∧ k = key t
  aok : s.assertOk = true
  mapWF : ∀ k a, mlookup s.map k = some a →
    ∃ cell, s.heap[a]? = some cell ∧ cell.typeId = k

/-- The initial state satisfies the invariant. -/
lemma inv_init (N : Nat) (key : Nat → Nat) (Val : Type) :
    Inv N key (initSys Val) := by
  refine ⟨fun t h => ?_, fun t h => ?_, fun t h => ?_, fun t a h => ?_,
    fun k => ?_, fun k hk => ?_, rfl, fun k a h => ?_⟩ <;>
    simp [initSys, countN, mlookup] at *

/-- Every step preserves the invariant. -/
lemma inv_step {N : Nat} {key : Nat → Nat} {Val : Type}
    {fac : Nat → Unit → Val} {s s2 : Sys Val} (hi : Inv N key s)
    (hs : Step N key fac s s2) : Inv N key s2 := by
  cases hs with
  | fastHit t a htN hts hm =>
    constructor
    · intro t2 hl2
      obtain ⟨h1, h2⟩ := hi.lockTs t2 hl2
      refine ⟨h1, ?_⟩
      simp only [updTS]
      by_cases he : t2 = t
      · subst he; rw [hts] at h2; cases h2
      · simpa [he] using h2
    · intro t2 h2
      simp only [updTS] at h2
      by_cases he : t2 = t
      · simp [he] at h2
      · exact hi.upgLock t2 (by simpa [he] using h2)
    · intro t2 h2
      simp only [updTS] at h2
      by_cases he : t2 = t
      · simp [he] at h2
      · exact hi.upgAbsent t2 (by simpa [he] using h2)
    · intro t2 a2 h2
      simp only [updTS] at h2
      by_cases he : t2 = t
      · subst he
        simp at h2
        subst h2
        simpa using hm
      · exact hi.doneMap t2 a2 (by simpa [he] using h2)
    · exact hi.countMap
    · exact hi.memKeys
    · exact hi.aok
    · exact hi.mapWF
  | fastMiss t htN hts hm =>
    constructor
    · intro t2 hl2
      obtain ⟨h1, h2⟩ := hi.lockTs t2 hl2
      refine ⟨h1, ?_⟩
      simp only [updTS]
      by_cases he : t2 = t
      · subst he; rw [hts] at h2; cases h2
      · simpa [he] using h2
    · intro t2 h2
      simp only [updTS] at h2
      by_cases he : t2 = t
      · simp [he] at h2
      · exact hi.upgLock t2 (by simpa [he] using h2)
    · intro t2 h2
      simp only [updTS] at h2
      by_cases he : t2 = t
      · simp [he] at h2
      · exact hi.upgAbsent t2 (by simpa [he] using h2)
    · intro t2 a2 h2
      simp only [updTS] at h2
      by_cases he : t2 = t
      · simp [he] at h2
      · exact hi.doneMap t2 a2 (by simpa [he] using h2)
    · exact hi.countMap
    · exact hi.memKeys
    · exact hi.aok
    · exact hi.mapWF
  | upgHit t a htN hts hl hm =>
    constructor
    · intro t2 hl2
      rw [hl] at hl2
      cases hl2
    · intro t2 h2
      simp only [updTS] at h2
      by_cases he : t2 = t
      · simp [he] at h2
      · have := hi.upgLock t2 (by simpa [he] using h2)
        rw [hl] at this
        cases this
    · intro t2 h2
      simp only [updTS] at h2
      by_cases he : t2 = t
      · simp [he] at h2
      · exact hi.upgAbsent t2 (by simpa [he] using h2)
    · intro t2 a2 h2
      simp only [updTS] at h2
      by_cases he : t2 = t
      · subst he
        simp at h2
        subst h2
        simpa using hm
      · exact hi.doneMap t2 a2 (by simpa [he] using h2)
    · exact hi.countMap
    · exact hi.memKeys
    · exact hi.aok
    · exact hi.mapWF
  | upgMiss t htN hts hl hm =>
    constructor
    · intro t2 hl2
      simp at hl2
      subst hl2
      exact ⟨htN, by simp [updTS]⟩
    · intro t2 h2
      simp only [updTS] at h2
      by_cases he : t2 = t
      · simp [he]
      · have := hi.upgLock t2 (by simpa [he] using h2)
        rw [hl] at this
        cases this
    · intro t2 h2
      simp only [updTS] at h2
      by_cases he : t2 = t
      · subst he
        simpa using hm
      · have := hi.upgLock t2 (by simpa [he] using h2)
        rw [hl] at this
        cases this
    · intro t2 a2 h2
      simp only [updTS] at h2
      by_cases he : t2 = t
      · simp [he] at h2
      · exact hi.doneMap t2 a2 (by simpa [he] using h2)
    · exact hi.countMap
    · exact hi.memKeys
    · exact hi.aok
    · exact hi.mapWF
  | doInsert t htN hts hl =>
    have habs : mlookup s.map (key t) = none := hi.upgAbsent t hts
    constructor
    · intro t2 hl2
      cases hl2
    · intro t2 h2
      simp only [updTS] at h2
      by_cases he : t2 = t
      · simp [he] at h2
      · have hlk := hi.upgLock t2 (by simpa [he] using h2)
        rw [hl] at hlk
        cases hlk
        exact absurd rfl he
    · intro t2 h2
      simp only [updTS] at h2
      by_cases he : t2 = t
      · simp [he] at h2
      · have hlk := hi.upgLock t2 (by simpa [he] using h2)
        rw [hl] at hlk
        cases hlk
        exact absurd rfl he
    · intro t2 a2 h2
      simp only [updTS] at h2
      by_cases he : t2 = t
      · subst he
        simp at h2
        subst h2
        simp [mlookup]
      · have hd := hi.doneMap t2 a2 (by simpa [he] using h2)
        by_cases hk : key t = key t2
        · rw [← hk, habs] at hd
          cases hd
        · simpa [mlookup, hk] using hd
    · intro k
      rw [countN_append]
      by_cases hk : key t = k
      · subst hk
        have h0 : countN s.invoked (key t) = 0 := by
          have := hi.countMap (key t)
          rw [habs] at this
          simpa using this
        simp [h0, countN, mlookup]
      · have := hi.countMap k
        simp [countN, hk, mlookup, this]
    · intro k hk
      rcases List.mem_append.mp hk with h1 | h1
      · exact hi.memKeys k h1
      · simp at h1
        exact ⟨t, htN, h1⟩
    · simp [hi.aok, habs]
    · intro k a hka
      simp only [mlookup] at hka
      by_cases hk : key t = k
      · subst hk
        simp at hka
        subst hka
        exact ⟨⟨key t, fac t ()⟩, by simp [List.getElem?_concat_length], rfl⟩
      · rw [if_neg hk] at hka
        obtain ⟨cell, hc, hct⟩ := hi.mapWF k a hka
        have hlt : a < s.heap.length := (List.getElem?_eq_some_iff.mp hc).1
        exact ⟨cell, by simp [List.getElem?_append_left hlt, hc], hct⟩

/-- Every reachable state satisfies the invariant. -/
lemma reachable_inv {N : Nat} {key : Nat → Nat} {Val : Type}
    {fac : Nat → Unit → Val} {s : Sys Val} (h : Reachable N key fac s) :
    Inv N key s := by
  induction h with
  | refl => exact inv_init N key Val
  | tail hsteps hstep ih => exact inv_step ih hstep

/-- C3: for every number `N ≥ 1` of concurrent threads all calling
`get_or_init::<T>(f)` on the same registry (same key `k`, same factory `f`),
in every interleaved execution in which all `N` calls have returned, the
factory was invoked exactly once across all threads (`invoked = [k]`) and
all `N` returned handles reference the identical underlying stored value
(they all carry the same `Arc` address). -/
theorem c3_exactly_once_under_contention (Val : Type) (N k : Nat)
    (f : Unit → Val) (s : Sys Val)
    (hr : Reachable N (fun _ => k) (fun _ => f) s)
    (hN : 1 ≤ N)
    (hdone : ∀ t, t < N → ∃ a, s.ts t = TState.done a) :
    s.invoked = [k] ∧
      ∀ t1 t2 a1 a2, t1 < N → t2 < N → s.ts t1 = TState.done a1 →
        s.ts t2 = TState.done a2 → a1 = a2 := by
  have hi := reachable_inv hr
  obtain ⟨a0, ha0⟩ := hdone 0 hN
  have hm0 : mlookup s.map k = some a0 := hi.doneMap 0 a0 ha0
  constructor
  · refine countN_one_all_eq ?_ ?_
    · have := hi.countMap k
      rw [hm0] at this
      simpa using this
    · intro x hx
      obtain ⟨t, _, hxk⟩ := hi.memKeys x hx
      exact hxk
  · intro t1 t2 a1 a2 _ _ h1 h2
    have e1 : mlookup s.map k = some a1 := hi.doneMap t1 a1 h1
    have e2 : mlookup s.map k = some a2 := hi.doneMap t2 a2 h2
    rw [e1] at e2
    exact Option.some_injective _ e2

/-- C8: in every reachable state of the interleaving model the defensive
`debug_assert!(option.is_none())` has never failed, and whenever a thread
has passed the fast-path read and the re-check under the upgradable lock
(program point `upg`, about to insert) its key is still absent from the
map, so the impending insert returns no previous value. -/
theorem c8_insert_assert_holds {Val : Type} (N : Nat) (key : Nat → Nat)
    (fac : Nat → Unit → Val) (s : Sys Val) (hr : Reachable N key fac s) :
    s.assertOk = true ∧
      ∀ t, s.ts t = TState.upg → mlookup s.map (key t) = none := by
  have hi := reachable_inv hr
  exact ⟨hi.aok, hi.upgAbsent⟩

/-- A concrete four-state execution of one thread (`N = 1`, key `0`,
factory returning `0`): fast-path miss, upgradable re-check miss, then
insert.  Used to witness the concurrency theorems on a real execution. -/
def execFinal : Sys Nat :=
  { heap := [⟨0, 0⟩]
    map := [(0, 0)]
    lock := none
    ts := updTS (updTS (updTS (fun _ => TState.start) 0 TState.pc1) 0
      TState.upg) 0 (TState.done 0)
    invoked := [0]
    assertOk := true }

/-- The concrete execution state is reachable. -/
lemma execFinal_reachable :
    Reachable 1 (fun _ => 0) (fun _ _ => (0 : Nat)) execFinal := by
  have h1 : Step 1 (fun _ => 0) (fun _ _ => (0 : Nat)) (initSys Nat)
      { initSys Nat with ts := updTS (initSys Nat).ts 0 TState.pc1 } :=
    Step.fastMiss (initSys Nat) 0 Nat.one_pos rfl rfl
  have h2 : Step 1 (fun _ => 0) (fun _ _ => (0 : Nat))
      { initSys Nat with ts := updTS (initSys Nat).ts 0 TState.pc1 }
      { initSys Nat with
          ts := updTS (updTS (initSys Nat).ts 0 TState.pc1) 0 TState.upg
          lock := some 0 } :=
    Step.upgMiss _ 0 Nat.one_pos rfl rfl rfl
  have h3 : Step 1 (fun _ => 0) (fun _ _ => (0 : Nat))
      { initSys Nat with
          ts := updTS (updTS (initSys Nat).ts 0 TState.pc1) 0 TState.upg
          lock := some 0 }
      execFinal :=
    Step.doInsert _ 0 Nat.one_pos rfl rfl
  exact Relation.ReflTransGen.tail
    (Relation.ReflTransGen.tail
      (Relation.ReflTransGen.tail Relation.ReflTransGen.refl h1) h2) h3

/-- Witness for C3 at a concrete execution: one thread, key `0`, factory
returning `0`; all threads are done, and the conclusion holds there. -/
theorem c3_witness :
    (∀ t, t < 1 → ∃ a, execFinal.ts t = TState.done a) ∧
      (execFinal.invoked = [0] ∧
        ∀ t1 t2 a1 a2, t1 < 1 → t2 < 1 → execFinal.ts t1 = TState.done a1 →
          execFinal.ts t2 = TState.done a2 → a1 = a2) := by
  have hdone : ∀ t, t < 1 → ∃ a, execFinal.ts t = TState.done a := by
    intro t ht
    have h0 : t = 0 := Nat.lt_one_iff.mp ht
    subst h0
    exact ⟨0, rfl⟩
  exact ⟨hdone, c3_exactly_once_under_contention Nat 1 0 (fun _ => (0 : Nat))
    execFinal execFinal_reachable Nat.le.refl hdone⟩

/-- Witness for C8 at the same concrete execution: after an actual insert,
the assertion flag is still `true`. -/
theorem c8_witness :
    execFinal.assertOk = true ∧
      ∀ t, execFinal.ts t = TState.upg →
        mlookup execFinal.map ((fun _ => 0) t) = none :=
  c8_insert_assert_holds 1 (fun _ => 0) (fun _ _ => (0 : Nat)) execFinal
    execFinal_reachable

/-- C1: two sequential `get_or_init` calls for the same `TypeId` on the same
registry return handles with the identical `Arc` address; the second call
never invokes its factory `g`; and when the first call populated the entry
(the key was absent), the first factory `f` ran and the second handle
dereferences to the value `f` produced. -/
theorem c1_idempotent_retrieval (Val : Type) (s0 : GenericGlobal Val)
    (tid : Nat) (f g : Unit → Val) :
    ((s0.get_or_init tid f).state.get_or_init tid g).invoked = false ∧
      ((s0.get_or_init tid f).state.get_or_init tid g).handle
        = (s0.get_or_init tid f).handle ∧
      (mlookup s0.map tid = none →
        (s0.get_or_init tid f).invoked = true ∧
          ((s0.get_or_init tid f).state.get_or_init tid g).handle.deref
            ((s0.get_or_init tid f).state.get_or_init tid g).state
            = some (f ())) := by
  cases h : mlookup s0.map tid with
  | some addr =>
    refine ⟨?_, ?_, ?_⟩
    · simp [GenericGlobal.get_or_init, h]
    · simp [GenericGlobal.get_or_init, h]
    · intro hc
      simp at hc
  | none =>
    have hr1 : mlookup ((tid, s0.heap.length) :: s0.map) tid
        = some s0.heap.length := by simp [mlookup]
    refine ⟨?_, ?_, fun _ => ⟨?_, ?_⟩⟩
    · simp [GenericGlobal.get_or_init, h, hr1]
    · simp [GenericGlobal.get_or_init, h, hr1]
    · simp [GenericGlobal.get_or_init, h]
    · simp [GenericGlobal.get_or_init, h, hr1, Entry.deref, Entry.new,
        List.getElem?_concat_length]

/-- Witness for C1 at a concrete input (empty registry, so the inner
implication's hypothesis is discharged as well). -/
theorem c1_witness :
    mlookup (GenericGlobal.new Nat).map 7 = none ∧
      (((GenericGlobal.new Nat).get_or_init 7 (fun _ => 42)).state.get_or_init
          7 (fun _ => 99)).invoked = false ∧
      (((GenericGlobal.new Nat).get_or_init 7 (fun _ => 42)).state.get_or_init
          7 (fun _ => 99)).handle
        = ((GenericGlobal.new Nat).get_or_init 7 (fun _ => 42)).handle ∧
      ((GenericGlobal.new Nat).get_or_init 7 (fun _ => 42)).invoked = true ∧
      (((GenericGlobal.new Nat).get_or_init 7 (fun _ => 42)).state.get_or_init
          7 (fun _ => 99)).handle.deref
        (((GenericGlobal.new Nat).get_or_init 7 (fun _ => 42)).state.get_or_init
          7 (fun _ => 99)).state = some 42 := by
  have hm : mlookup (GenericGlobal.new Nat).map 7 = none := rfl
  obtain ⟨h1, h2, h3⟩ :=
    c1_idempotent_retrieval Nat (GenericGlobal.new Nat) 7 (fun _ => 42)
      (fun _ => 99)
  exact ⟨hm, h1, h2, (h3 hm).1, (h3 hm).2⟩

/-- C2: on a well-formed registry, the handle produced by `get_or_init`
always dereferences successfully — the checked downcast in `Deref` never
returns `none`, so the `unwrap` is unreachable — and the dereference yields
exactly the value stored in the registry under the requested `TypeId`. -/
theorem c2_downcast_always_succeeds (Val : Type) (s : GenericGlobal Val)
    (tid : Nat) (f : Unit → Val) (hwf : s.WF) :
    ∃ v, (s.get_or_init tid f).handle.deref (s.get_or_init tid f).state
        = some v
      ∧ (s.get_or_init tid f).state.storedValue tid = some v := by
  obtain ⟨v, h1, h2, _⟩ := deref_get_or_init s tid f hwf
  exact ⟨v, h1, h2⟩

/-- Witness for C2 at a concrete input. -/
theorem c2_witness :
    (GenericGlobal.new Nat).WF ∧
      ∃ v, ((GenericGlobal.new Nat).get_or_init 3 (fun _ => 11)).handle.deref
          ((GenericGlobal.new Nat).get_or_init 3 (fun _ => 11)).state = some v
        ∧ ((GenericGlobal.new Nat).get_or_init 3 (fun _ => 11)).state.storedValue
            3 = some v :=
  ⟨wf_new Nat,
    c2_downcast_always_succeeds Nat (GenericGlobal.new Nat) 3 (fun _ => 11)
      (wf_new Nat)⟩

/-- One `get_or_init` call keeps every already-present binding, bound to the
same address, and leaves the cell at that address unchanged. -/
lemma persist_one {Val : Type} {s : GenericGlobal Val} (tid : Nat)
    (f : Unit → Val) {k a : Nat} (hwf : s.WF)
    (h : mlookup s.map k = some a) :
    mlookup (s.get_or_init tid f).state.map k = some a ∧
      (s.get_or_init tid f).state.heap[a]? = s.heap[a]? := by
  cases hm : mlookup s.map tid with
  | some addr => simp [GenericGlobal.get_or_init, hm, h]
  | none =>
    have hk : tid ≠ k := by
      intro he
      rw [he, h] at hm
      cases hm
    obtain ⟨cell, hc, _⟩ := hwf (k, a) (mlookup_mem h)
    have hlt : a < s.heap.length := (List.getElem?_eq_some_iff.mp hc).1
    constructor
    · simp [GenericGlobal.get_or_init, hm, mlookup, hk, h]
    · simp [GenericGlobal.get_or_init, hm, List.getElem?_append_left hlt]

/-- Run a list of `get_or_init` calls (key–factory pairs) in order. -/
def runCalls {Val : Type} (s : GenericGlobal Val) :
    List (Nat × (Unit → Val)) → GenericGlobal Val
  | [] => s
  | c :: rest => runCalls (s.get_or_init c.1 c.2).state rest

/-- C4: once an entry is present (a `TypeId` bound to an `Arc` address on a
well-formed registry), no sequence of further `get_or_init` calls ever
rebinds, removes, or changes it: after any such sequence the key is still
bound to the same address, and the heap cell at that address is untouched. -/
theorem c4_entry_persistence (Val : Type) (s : GenericGlobal Val)
    (calls : List (Nat × (Unit → Val))) (k a : Nat) (hwf : s.WF)
    (h : mlookup s.map k = some a) :
    mlookup (runCalls s calls).map k = some a ∧
      (runCalls s calls).heap[a]? = s.heap[a]? := by
  induction calls generalizing s with
  | nil => exact ⟨h, rfl⟩
  | cons c rest ih =>
    obtain ⟨h1, h2⟩ := persist_one c.1 c.2 hwf h
    obtain ⟨h3, h4⟩ := ih _ (wf_get_or_init c.1 c.2 hwf) h1
    exact ⟨h3, h4.trans h2⟩

/-- Witness for C4 at a concrete input: a registry already holding key `0`
at address `0`, followed by two further calls (one other key, one same). -/
theorem c4_witness :
    (GenericGlobal.mk [ArcAny.mk 0 5] [(0, 0)]).WF ∧
      mlookup (GenericGlobal.mk [ArcAny.mk 0 5] [(0, 0)]).map 0 = some 0 ∧
      mlookup (runCalls (GenericGlobal.mk [ArcAny.mk 0 5] [(0, 0)])
          [(1, fun _ => 7), (0, fun _ => 9)]).map 0 = some 0 ∧
      (runCalls (GenericGlobal.mk [ArcAny.mk 0 5] [(0, 0)])
          [(1, fun _ => 7), (0, fun _ => 9)]).heap[(0 : Nat)]?
        = (GenericGlobal.mk [ArcAny.mk 0 5] [(0, 0)]).heap[(0 : Nat)]? := by
  have hwf : (GenericGlobal.mk [ArcAny.mk 0 5] [(0, 0)]).WF := by
    intro p hp
    simp at hp
    subst hp
    exact ⟨⟨0, 5⟩, rfl, rfl⟩
  have hm : mlookup (GenericGlobal.mk [ArcAny.mk 0 5] [(0, 0)]).map 0
      = some 0 := rfl
  obtain ⟨h1, h2⟩ := c4_entry_persistence Nat
    (GenericGlobal.mk [ArcAny.mk 0 5] [(0, 0)])
    [(1, fun _ => 7), (0, fun _ => 9)] 0 0 hwf hm
  exact ⟨hwf, hm, h1, h2⟩

/-- C5: a `get_or_init` call for `TypeId` `tid` neither mutates nor reads
any other entry: every binding for a key other than `tid` is exactly what
it was before, every pre-existing heap cell is unchanged, and whether the
factory runs depends only on `tid`'s own binding (two registries agreeing
on `tid`'s binding make the same decision). -/
theorem c5_isolation_across_types (Val : Type) (s : GenericGlobal Val)
    (tid : Nat) (f : Unit → Val) (k : Nat) (hk : k ≠ tid) :
    mlookup (s.get_or_init tid f).state.map k = mlookup s.map k ∧
      (∀ a, a < s.heap.length →
        (s.get_or_init tid f).state.heap[a]? = s.heap[a]?) ∧
      (∀ s2 : GenericGlobal Val, mlookup s2.map tid = mlookup s.map tid →
        (s2.get_or_init tid f).invoked = (s.get_or_init tid f).invoked) := by
  refine ⟨?_, ?_, ?_⟩
  · cases hm : mlookup s.map tid with
    | some addr => simp [GenericGlobal.get_or_init, hm]
    | none =>
      have hne : tid ≠ k := fun he => hk he.symm
      simp [GenericGlobal.get_or_init, hm, mlookup, hne]
  · intro a ha
    cases hm : mlookup s.map tid with
    | some addr => simp [GenericGlobal.get_or_init, hm]
    | none => simp [GenericGlobal.get_or_init, hm, List.getElem?_append_left ha]
  · intro s2 h2
    rw [invoked_get_or_init, invoked_get_or_init, h2]

/-- Witness for C5 at a concrete input. -/
theorem c5_witness :
    (1 : Nat) ≠ 0 ∧
      (mlookup ((GenericGlobal.mk [ArcAny.mk 0 5] [(0, 0)]).get_or_init 0
          (fun _ => 9)).state.map 1
        = mlookup (GenericGlobal.mk [ArcAny.mk 0 5] [(0, 0)]).map 1 ∧
      (∀ a, a < (GenericGlobal.mk [ArcAny.mk 0 5] [(0, 0)]).heap.length →
        ((GenericGlobal.mk [ArcAny.mk 0 5] [(0, 0)]).get_or_init 0
            (fun _ => 9)).state.heap[a]?
          = (GenericGlobal.mk [ArcAny.mk 0 5] [(0, 0)]).heap[a]?) ∧
      (∀ s2 : GenericGlobal Nat,
        mlookup s2.map 0 = mlookup (GenericGlobal.mk [ArcAny.mk 0 5]
          [(0, 0)]).map 0 →
        (s2.get_or_init 0 (fun _ => 9)).invoked
          = ((GenericGlobal.mk [ArcAny.mk 0 5] [(0, 0)]).get_or_init 0
              (fun _ => 9)).invoked)) :=
  ⟨one_ne_zero,
    c5_isolation_across_types Nat (GenericGlobal.mk [ArcAny.mk 0 5] [(0, 0)])
      0 (fun _ => 9) 1 one_ne_zero⟩

/-- C6: `GenericGlobal::new` produces an empty registry, and the first
`get_or_init` on it invokes the factory, stores the produced value under
the requested `TypeId`, and returns a handle dereferencing to it. -/
theorem c6_new_then_first_call (Val : Type) (tid : Nat) (f : Unit → Val) :
    (GenericGlobal.new Val).map = [] ∧
      (GenericGlobal.new Val).heap = [] ∧
      ((GenericGlobal.new Val).get_or_init tid f).invoked = true ∧
      ((GenericGlobal.new Val).get_or_init tid f).handle.deref
        ((GenericGlobal.new Val).get_or_init tid f).state = some (f ()) ∧
      mlookup ((GenericGlobal.new Val).get_or_init tid f).state.map tid
        = some ((GenericGlobal.new Val).get_or_init tid f).handle.arc := by
  refine ⟨rfl, rfl, ?_, ?_, ?_⟩ <;>
    simp [GenericGlobal.new, GenericGlobal.get_or_init, mlookup, Entry.deref,
      Entry.new]

/-- C7: `get_or_init` is total at the API boundary — on any well-formed
registry state it returns a handle that dereferences to a value; there is
no error, "not found", or "already exists" outcome in its result type. -/
theorem c7_total_valid_handle (Val : Type) (s : GenericGlobal Val) (tid : Nat)
    (f : Unit → Val) (hwf : s.WF) :
    ∃ v, (s.get_or_init tid f).handle.deref (s.get_or_init tid f).state
      = some v := by
  obtain ⟨v, h1, _, _⟩ := deref_get_or_init s tid f hwf
  exact ⟨v, h1⟩

/-- Witness for C7 at a concrete input (a registry that already holds the
requested key, exercising the fast path). -/
theorem c7_witness :
    (GenericGlobal.mk [ArcAny.mk 4 6] [(4, 0)]).WF ∧
      ∃ v, ((GenericGlobal.mk [ArcAny.mk 4 6] [(4, 0)]).get_or_init 4
          (fun _ => 8)).handle.deref
        ((GenericGlobal.mk [ArcAny.mk 4 6] [(4, 0)]).get_or_init 4
          (fun _ => 8)).state = some v := by
  have hwf : (GenericGlobal.mk [ArcAny.mk 4 6] [(4, 0)]).WF := by
    intro p hp
    simp at hp
    subst hp
    exact ⟨⟨4, 6⟩, rfl, rfl⟩
  exact ⟨hwf, c7_total_valid_handle Nat (GenericGlobal.mk [ArcAny.mk 4 6]
    [(4, 0)]) 4 (fun _ => 8) hwf⟩

/-- C9: cloning a handle is pure sharing: the clone is the very same
address–`TypeId` pair (it references the identical stored cell and
dereferences identically in every registry state).  `Entry.clone` takes no
registry and no factory, so it can touch neither. -/
theorem c9_clone_shares (Val : Type) (e : Entry) :
    Entry.clone e = e ∧ (Entry.clone e).arc = e.arc ∧
      ∀ s : GenericGlobal Val, (Entry.clone e).deref s = e.deref s :=
  ⟨rfl, rfl, fun _ => rfl⟩

/-- C10: `Display` for `Entry<T>` delegates through `Deref`: whenever the
handle dereferences to a stored value `v`, formatting the handle produces
exactly the output of formatting `v` directly. -/
theorem c10_display_delegates (Val : Type) (s : GenericGlobal Val) (e : Entry)
    (v : Val) (disp : Val → String) (h : e.deref s = some v) :
    Entry.fmtDisplay disp s e = some (disp v) := by
  simp [Entry.fmtDisplay, h]

/-- Witness for C10 at a concrete input. -/
theorem c10_witness :
    (Entry.mk 0 2).deref (GenericGlobal.mk [ArcAny.mk 2 5] [(2, 0)])
        = some 5 ∧
      Entry.fmtDisplay (fun n => toString n)
        (GenericGlobal.mk [ArcAny.mk 2 5] [(2, 0)]) (Entry.mk 0 2)
        = some (toString (5 : Nat)) :=
  ⟨rfl, c10_display_delegates Nat (GenericGlobal.mk [ArcAny.mk 2 5] [(2, 0)])
    (Entry.mk 0 2) 5 (fun n => toString n) rfl⟩

end GenericGlobals
